import Mathlib

set_option linter.unusedVariables false

/-!
Shallow embedding of the opengrok-manager reconciliation engine
(`opengrok_manager/main.py`) and proofs about its behaviour.

The data model mirrors the dataclasses of the source; the acquisition
strategies and the reconciliation loop are embedded as pure functions over
explicit filesystem / service state, with the outcomes of external
collaborators (network, git commands, archive extraction, the reindex tool)
supplied by oracle records.  Side effects are reified as event lists so that
claims about which operations happen (and how often) can be stated directly.
-/

/-- Embeds the `GitSpec` dataclass (main.py lines 20-25). -/
structure GitSpec where
  url : String
  ref : Option String := none
  depth : Option Nat := none
  deriving DecidableEq, Repr

/-- Embeds the `algorithm` literal field of `HashSpec` (main.py line 31). -/
inductive HashAlg
  | sha1
  | sha256
  deriving DecidableEq, Repr

/-- Embeds the `HashSpec` dataclass (main.py lines 28-32). -/
structure HashSpec where
  algorithm : HashAlg
  value : String
  deriving DecidableEq, Repr

/-- Embeds the `ArchiveFileSpec` dataclass (main.py lines 35-40). -/
structure ArchiveFileSpec where
  url : String
  extension : Option String := none
  digest : Option HashSpec := none
  deriving DecidableEq, Repr

/-- Embeds the `Project` dataclass (main.py lines 43-48).  `git` and
`archive` both default to `none`, exactly as in the source. -/
structure Project where
  name : String
  git : Option GitSpec := none
  archive : Option ArchiveFileSpec := none
  deriving DecidableEq, Repr

/-- Embeds `SourceCodeDownloader._verify_hash` (main.py lines 396-406).
The first argument is the `hexdigest()` of the downloaded file; the source
raises `ValueError` exactly when `computed_hash != digest.value`, a plain
string comparison. -/
def verify_hash (computed_hash : String) (digest : HashSpec) : Except String Unit :=
  if computed_hash ≠ digest.value then
    .error "Hash mismatch"
  else
    .ok ()

/-- The last component of a URL path: what `pathlib.Path(url).name` yields
for the URLs this program handles (no trailing slash). -/
def lastComponent (s : String) : String :=
  match (s.splitOn "/").getLast? with
  | some t => t
  | none => s

/-- Embeds `pathlib.PurePath.suffixes` applied to the last URL component
(main.py line 315): drop leading dots, split on dots, each tail piece with a
leading dot restored; a name ending in a dot has no suffixes. -/
def pathSuffixes (nm : String) : List String :=
  if nm.endsWith "." then []
  else
    match (nm.dropWhile (fun c => c == Char.ofNat 46)).splitOn "." with
    | [] => []
    | _ :: rest => rest.map (fun s => "." ++ s)

/-- Embeds Python `str.lstrip(".")`: remove every leading dot
(main.py line 324). -/
def lstripDots (s : String) : String :=
  s.dropWhile (fun c => c == Char.ofNat 46)

/-- Embeds the extension-determination block of
`SourceCodeDownloader._download_archive` (main.py lines 309-324): the
explicit `extension` field wins; otherwise the URL suffixes are consulted,
joining a trailing `.tar.<z>` pair into a compound extension; failure when
no suffix exists; finally leading dots are stripped. -/
def resolveExtension (spec : ArchiveFileSpec) : Except String String :=
  match spec.extension with
  | some e => .ok (lstripDots e)
  | none =>
    match (pathSuffixes (lastComponent spec.url)).reverse with
    | [] => .error "Cannot determine file extension from URL"
    | [last] => .ok (lstripDots last)
    | last :: prev :: _ =>
      if prev = ".tar" then .ok (lstripDots (prev ++ last))
      else .ok (lstripDots last)

/-- Error classes raised by the acquisition strategies. -/
inductive DLErr
  | noSpec
  | extensionError
  | netError
  | bodyError
  | hashMismatch
  | unsupportedFormat
  | extractError
  | gitFetchError
  | gitResetError
  | gitCloneError
  deriving DecidableEq, Repr

/-- Filesystem facts `_download_archive` reads and writes for one project:
whether `src_dir/<name>` exists and whether
`data_dir/<name>/archive.<ext>` exists. -/
structure ArchFs where
  targetExists : Bool
  archiveExists : Bool
  deriving DecidableEq, Repr

/-- Observable steps of `_download_archive`, in program order. -/
inductive ArchEvent
  | rmTargetStale
  | netGet
  | writeArchive
  | verifyDigest
  | extractZip
  | extractTar
  deriving DecidableEq, Repr

/-- Outcomes of the external collaborators of `_download_archive`: whether
the HTTP GET (with `raise_for_status`) succeeds, whether streaming the body
to disk succeeds, the hexdigest of the fully downloaded file per algorithm,
and whether the unzip/tar child process exits 0. -/
structure ArchiveEnv where
  netOk : Bool
  bodyOk : Bool
  hashHex : HashAlg → String
  extractOk : Bool

/-- The state left by the `except` handler of `_download_archive`
(main.py lines 385-391): the archive file unlinked and the target directory
removed. -/
def archCleanup : ArchFs := { targetExists := false, archiveExists := false }

/-- Embeds the comparison `old_project is not None and old_project.archive
== archive_spec` (main.py line 330). -/
def storedArchiveMatches (stored : Option Project) (spec : ArchiveFileSpec) : Bool :=
  match stored with
  | some old => old.archive == some spec
  | none => false

/-- The part of `SourceCodeDownloader._download_archive` after extension
resolution (main.py lines 327-394): the skip check against the stored
record, the stale-directory removal, the streamed download, the optional
digest verification, and the extraction, with the `except` cleanup on any
failure inside the `try`.  Returns the result (`changed` or an error), the
final filesystem state, and the observable steps in order. -/
def downloadArchiveBody (env : ArchiveEnv) (spec : ArchiveFileSpec) (stored : Option Project)
    (fs : ArchFs) (ext : String) : Except DLErr Bool × ArchFs × List ArchEvent :=
  if fs.targetExists && storedArchiveMatches stored spec then
      (.ok false, fs, [])
    else
      let fs1 : ArchFs := if fs.targetExists then { fs with targetExists := false } else fs
      let evs1 : List ArchEvent := if fs.targetExists then [.rmTargetStale] else []
      if !env.netOk then
        (.error .netError, fs1, evs1 ++ [.netGet])
      else
        let evs2 := evs1 ++ [ArchEvent.netGet, ArchEvent.writeArchive]
        if !env.bodyOk then
          (.error .bodyError, archCleanup, evs2)
        else
          let fs2 : ArchFs := { fs1 with archiveExists := true }
          let hashFail : Bool :=
            match spec.digest with
            | some d => env.hashHex d.algorithm != d.value
            | none => false
          let evs3 := evs2 ++ (if spec.digest.isSome then [ArchEvent.verifyDigest] else [])
          if hashFail then
            (.error .hashMismatch, archCleanup, evs3)
          else
            let fs3 : ArchFs := { fs2 with targetExists := true }
            let extLower := ext.toLower
            if extLower = "zip" then
              if env.extractOk then (.ok true, fs3, evs3 ++ [.extractZip])
              else (.error .extractError, archCleanup, evs3 ++ [.extractZip])
            else if extLower = "tar" || extLower.startsWith "tar." then
              if env.extractOk then (.ok true, fs3, evs3 ++ [.extractTar])
              else (.error .extractError, archCleanup, evs3 ++ [.extractTar])
            else
              (.error .unsupportedFormat, archCleanup, evs3)

/-- Embeds `SourceCodeDownloader._download_archive` (main.py lines 299-394):
extension resolution followed by `downloadArchiveBody`. -/
def download_archive (env : ArchiveEnv) (spec : ArchiveFileSpec) (stored : Option Project)
    (fs : ArchFs) : Except DLErr Bool × ArchFs × List ArchEvent :=
  match resolveExtension spec with
  | .error _ => (.error .extensionError, fs, [])
  | .ok ext => downloadArchiveBody env spec stored fs ext

/-- Observable git commands run by `_download_git`, in program order. -/
inductive GitAction
  | revParseHead
  | fetch
  | tagCheck (ref : String)
  | resetTag (ref : String)
  | resetBranch (ref : String)
  | rmTree
  | clone (depth : Option Nat) (branch : Option String)
  deriving DecidableEq, Repr

/-- Outcomes of the git child processes for one invocation of
`_download_git`: the HEAD commit id before the fetch and after the reset,
whether `refs/tags/<ref>` verifies (exit 0), and whether the fetch, reset
and clone commands exit 0. -/
structure GitEnv where
  headBefore : String
  headAfter : String
  tagExists : String → Bool
  fetchOk : Bool
  resetOk : Bool
  cloneOk : Bool

/-- Embeds `git_spec.ref or "HEAD"` (main.py line 233): Python `or` treats
`None` and the empty string as falsy. -/
def effectiveRef (r : Option String) : String :=
  match r with
  | some s => if s = "" then "HEAD" else s
  | none => "HEAD"

/-- Embeds `if git_spec.ref:` on the clone path (main.py line 284): the
`--branch` argument is passed only for a non-empty ref. -/
def cloneBranchArg (r : Option String) : Option String :=
  match r with
  | some s => if s = "" then none else some s
  | none => none

/-- The body of `SourceCodeDownloader._download_git` (main.py lines
202-297) as a function of the desired project and its git spec, the
persisted record, whether the target directory and its `.git` marker
exist, and the git collaborator outcomes.  Returns the result (`changed`
or an error) and the git commands run in order. -/
def downloadGitBody (env : GitEnv) (desired : Project) (spec : GitSpec)
    (stored : Option Project) (targetExists gitMarker : Bool) :
    Except DLErr Bool × List GitAction :=
  if targetExists && gitMarker && (stored == some desired) then
      if !env.fetchOk then
        (.error .gitFetchError, [.revParseHead, .fetch])
      else
        let ref := effectiveRef spec.ref
        if env.tagExists ref then
          if env.resetOk then
            (.ok (env.headBefore != env.headAfter),
             [.revParseHead, .fetch, .tagCheck ref, .resetTag ref, .revParseHead])
          else (.error .gitResetError, [.revParseHead, .fetch, .tagCheck ref, .resetTag ref])
        else
          if env.resetOk then
            (.ok (env.headBefore != env.headAfter),
             [.revParseHead, .fetch, .tagCheck ref, .resetBranch ref, .revParseHead])
          else (.error .gitResetError, [.revParseHead, .fetch, .tagCheck ref, .resetBranch ref])
    else
      let evs0 : List GitAction := if targetExists then [.rmTree] else []
      if env.cloneOk then (.ok true, evs0 ++ [.clone spec.depth (cloneBranchArg spec.ref)])
      else (.error .gitCloneError, evs0 ++ [.clone spec.depth (cloneBranchArg spec.ref)])

/-- Embeds `SourceCodeDownloader._download_git` (main.py lines 192-297):
the guard raising on a missing git spec, then `downloadGitBody`. -/
def download_git (env : GitEnv) (desired : Project) (stored : Option Project)
    (targetExists gitMarker : Bool) : Except DLErr Bool × List GitAction :=
  match desired.git with
  | none => (.error .noSpec, [])
  | some spec => downloadGitBody env desired spec stored targetExists gitMarker

/-- Error classes thrown by `reindex_project`: the source retries exactly
`subprocess.CalledProcessError` (main.py line 608) and nothing else. -/
inductive PyErr
  | calledProcessError
  | otherError
  deriving DecidableEq, Repr

/-- The retry predicate configured in `main` (main.py line 608):
`tenacity.retry_if_exception_type(subprocess.CalledProcessError)`. -/
def retryIfCalledProcessError (e : PyErr) : Bool :=
  match e with
  | .calledProcessError => true
  | .otherError => false

/-- Modelled from the spec: the retry loop of the tenacity library (not part
of this repository), as configured in `main` (main.py lines 607-611).
Attempts are numbered from 1; `action k` is the outcome of attempt `k`
(`none` = success).  A non-retryable error propagates at once; a retryable
error is retried while attempts remain; exhausting the attempts re-raises
the final failure.  Returns the final outcome and the number of attempts
made; `remaining` counts the retries still allowed after the current
attempt. -/
def retryFrom (retryable : PyErr → Bool) (action : Nat → Option PyErr) :
    Nat → Nat → Option PyErr × Nat
  | 0, k =>
    match action k with
    | none => (none, k)
    | some e => (some e, k)
  | r + 1, k =>
    match action k with
    | none => (none, k)
    | some e => if retryable e then retryFrom retryable action r (k + 1) else (some e, k)

/-- Modelled from the spec: a call wrapped by the tenacity decorator with
`stop=stop_after_attempt(maxAttempts)` makes at most `maxAttempts`
attempts. -/
def retryCall (retryable : PyErr → Bool) (maxAttempts : Nat) (action : Nat → Option PyErr) :
    Option PyErr × Nat :=
  retryFrom retryable action (maxAttempts - 1) 1

/-- Modelled from the spec: `tenacity.wait_exponential_jitter(max=60)`
(main.py line 610) with the library defaults `initial=1`, `exp_base=2`,
`jitter=1`: the wait before retry `attempt+1` is
`max 0 (min (2^(attempt-1) + u) 60)` for a jitter sample `u` drawn from
`[0, 1]`. -/
def waitExponentialJitter (maxWait : ℚ) (jitterSample : ℚ) (attempt : Nat) : ℚ :=
  max 0 (min (2 ^ (attempt - 1) + jitterSample) maxWait)

/-- The default of the `--reindex-retries` flag (main.py line 559). -/
def defaultReindexRetries : Nat := 3

/-- Observable operations of the reconciliation loop, tagged with the
project name they act on. -/
inductive Ev
  | apiDelete (nm : String)
  | metaDelete (nm : String)
  | download (nm : String)
  | apiAdd (nm : String)
  | persist (nm : String)
  | reindexAttempt (nm : String) (attempt : Nat)
  deriving DecidableEq, Repr

/-- The project name an event acts on. -/
def Ev.pname : Ev → String
  | .apiDelete n => n
  | .metaDelete n => n
  | .download n => n
  | .apiAdd n => n
  | .persist n => n
  | .reindexAttempt n _ => n

/-- State shared between the indexing service and the metadata store: the
names registered with the service, and the on-disk `project.json` record of
each name. -/
structure St where
  registered : List String
  records : String → Option Project

/-- Embeds `OpenGrokClient.delete_project` (main.py lines 524-542): the
projadm delete call deregisters the name, and the metadata record is
deleted as well (`json_manager.delete_project`, line 542). -/
def deleteProject (st : St) (p : Project) : St × List Ev :=
  ({ registered := st.registered.erase p.name,
     records := fun n => if n = p.name then none else st.records n },
   [.apiDelete p.name, .metaDelete p.name])

/-- Embeds `OpenGrokClient.add_project` (main.py lines 439-502): registers
the name, runs the indexer and refresh, then persists the record
(`json_manager.save_project`, line 502). -/
def addProject (st : St) (p : Project) : St × List Ev :=
  ({ registered := p.name :: st.registered,
     records := fun n => if n = p.name then some p else st.records n },
   [.apiAdd p.name, .persist p.name])

/-- Deletes each project of the list in order, accumulating events. -/
def deleteAll : St → List Project → St × List Ev
  | st, [] => (st, [])
  | st, p :: rest =>
    let d := deleteProject st p
    let r := deleteAll d.1 rest
    (r.1, d.2 ++ r.2)

/-- Embeds `ProjectJsonManager.load_project` (main.py lines 137-151): the
stored record is returned only when it exists and its embedded name matches
the requested name; otherwise `None`. -/
def loadRecord (st : St) (n : String) : Option Project :=
  match st.records n with
  | some p => if p.name = n then some p else none
  | none => none

/-- The pairs `(name, record)` that `OpenGrokClient.get_projects`
(main.py lines 419-437) keeps: registered names whose record loads. -/
def validPairs (st : St) : List (String × Project) :=
  st.registered.filterMap (fun n => (loadRecord st n).map (fun p => (n, p)))

/-- The registered names whose record does not load
(`invalid_project_names`, main.py lines 424-432). -/
def invalidNames (st : St) : List String :=
  st.registered.filter (fun n => (loadRecord st n).isNone)

/-- The purge of invalid names done inside `get_projects`
(main.py lines 434-435): each is deleted via
`delete_project(Project(name=project_name))`. -/
def purgeInvalid (st : St) : St × List Ev :=
  deleteAll st ((invalidNames st).map (fun n => { name := n : Project }))

/-- Embeds `OpenGrokClient.get_projects` (main.py lines 419-437): builds
the map of valid projects, then deletes every invalid name. -/
def getProjects (st : St) : List (String × Project) × St × List Ev :=
  (validPairs st, (purgeInvalid st).1, (purgeInvalid st).2)

/-- Association lookup, embedding `actual_projects.get(name)`
(main.py line 583). -/
def lookupProj : List (String × Project) → String → Option Project
  | [], _ => none
  | (k, v) :: rest, n => if k = n then some v else lookupProj rest n

/-- Outcomes of the acquisition and reindex collaborators, keyed by project
name: the result of a git or archive download (`changed` or a caught
error) and the outcome of each reindex attempt. -/
structure Oracle where
  dlGit : String → Except Unit Bool
  dlArchive : String → Except Unit Bool
  reindexOutcome : String → Nat → Option PyErr

/-- Embeds `SourceCodeDownloader.download` (main.py lines 176-190): git is
consulted first, then archive, and a project with neither raises
`ValueError`. -/
def downloadOutcome (o : Oracle) (p : Project) : Except Unit Bool :=
  match p.git with
  | some _ => o.dlGit p.name
  | none =>
    match p.archive with
    | some _ => o.dlArchive p.name
    | none => .error ()

/-- Embeds `need_recreate` and the delete it triggers (main.py lines
586-589): when the observed record differs from the desired spec the
project is deleted via `OpenGrokClient.delete_project`. -/
def mismatchDelete (am : List (String × Project)) (st : St) (p : Project) : St × List Ev :=
  match lookupProj am p.name with
  | some a => if a = p then (st, []) else deleteProject st a
  | none => (st, [])

/-- Embeds `actual is None or need_recreate` (main.py line 601): whether the
add operation runs once the download reports a change. -/
def addNeededFor (am : List (String × Project)) (p : Project) : Bool :=
  match lookupProj am p.name with
  | some a => decide (a ≠ p)
  | none => true

/-- Embeds one iteration of the desired-project loop of `main`
(main.py lines 581-613): the mismatch delete, the per-project try around
the download, the conditional add, and the reindex under the retry policy.
The returned flag is false when the iteration aborts the whole run (a
reindex failure escaping the retry wrapper). -/
def processOne (o : Oracle) (retries : Nat) (am : List (String × Project)) (st : St)
    (p : Project) : St × List Ev × Bool :=
  let del := mismatchDelete am st p
  match downloadOutcome o p with
  | .error _ => (del.1, del.2 ++ [.download p.name], true)
  | .ok false => (del.1, del.2 ++ [.download p.name], true)
  | .ok true =>
    let added := if addNeededFor am p then addProject del.1 p else (del.1, [])
    let r := retryCall retryIfCalledProcessError retries (o.reindexOutcome p.name)
    let evsR := (List.range r.2).map (fun i => Ev.reindexAttempt p.name (i + 1))
    match r.1 with
    | none => (added.1, del.2 ++ [.download p.name] ++ added.2 ++ evsR, true)
    | some _ => (added.1, del.2 ++ [.download p.name] ++ added.2 ++ evsR, false)

/-- The desired-project loop of `main`, sequentially; an aborting iteration
stops the run. -/
def runLoop (o : Oracle) (retries : Nat) (am : List (String × Project)) :
    List Project → St → St × List Ev × Bool
  | [], st => (st, [], true)
  | p :: rest, st =>
    let r := processOne o retries am st p
    if r.2.2 then
      let r2 := runLoop o retries am rest r.1
      (r2.1, r.2.1 ++ r2.2.1, r2.2.2)
    else (r.1, r.2.1, false)

/-- The actual projects that are registered but not desired
(`extra_project_names`, main.py line 576). -/
def extrasOf (expected : List Project) (am : List (String × Project)) :
    List (String × Project) :=
  am.filter (fun kv => !(expected.any (fun p => p.name == kv.1)))

/-- Embeds the extras-removal loop of `main` (main.py lines 576-579). -/
def purgeExtras (expected : List Project) (am : List (String × Project)) (st : St) :
    St × List Ev :=
  deleteAll st ((extrasOf expected am).map Prod.snd)

/-- Embeds `main` (main.py lines 554-613) from the point the desired set is
known: observe actual state (purging invalid names), delete the extras,
then run the desired-project loop.  Returns the final state, the full event
trace in order, and whether the run completed. -/
def mainRun (o : Oracle) (retries : Nat) (expected : List Project) (st0 : St) :
    St × List Ev × Bool :=
  let gp := getProjects st0
  let ex := purgeExtras expected gp.1 gp.2.1
  let lp := runLoop o retries gp.1 expected ex.1
  (lp.1, gp.2.2 ++ ex.2 ++ lp.2.1, lp.2.2)

/-- Events that register, persist, or reindex a project. -/
def Ev.isAddOrReindex : Ev → Bool
  | .apiAdd _ => true
  | .persist _ => true
  | .reindexAttempt _ _ => true
  | _ => false

/-- A desired git project used in concrete runs. -/
def fixOldA : Project := { name := "A", git := some { url := "u1" } }

/-- The same project name with a different git url. -/
def fixNewA : Project := { name := "A", git := some { url := "u2" } }

/-- Start state for the mismatch run: name `A` registered with record
`fixOldA`. -/
def fixStA : St :=
  { registered := ["A"], records := fun m => if m = "A" then some fixOldA else none }

/-- An oracle whose downloads always fail. -/
def oracleFail : Oracle :=
  { dlGit := fun _ => .error (), dlArchive := fun _ => .error (),
    reindexOutcome := fun _ _ => none }

/-- An oracle whose downloads always report a change and whose reindex
always succeeds. -/
def oracleChanged : Oracle :=
  { dlGit := fun _ => .ok true, dlArchive := fun _ => .ok true,
    reindexOutcome := fun _ _ => none }

/-- An oracle whose downloads always report no change. -/
def oracleUnchanged : Oracle :=
  { dlGit := fun _ => .ok false, dlArchive := fun _ => .ok false,
    reindexOutcome := fun _ _ => none }

/-- A desired project with neither a git nor an archive origin. -/
def fixBad : Project := { name := "bad" }

/-- A valid registered project `E` that is not desired. -/
def fixE : Project := { name := "E", git := some { url := "u" } }

/-- Start state for the zero-origin run: name `E` registered with a valid
record. -/
def fixStE : St :=
  { registered := ["E"], records := fun m => if m = "E" then some fixE else none }

/-- Case-insensitive comparison of hex strings, expressed as equality after
an ASCII lower-casing of every character. -/
def hexLower (s : String) : String :=
  String.mk (s.data.map Char.toLower)

/-- An empty start state: nothing registered, no records. -/
def fixStEmpty : St := { registered := [], records := fun _ => none }

/-- A start state with name `X` registered but no record on disk. -/
def fixStX : St := { registered := ["X"], records := fun _ => none }

/-- A git project `P` used for the no-change witness. -/
def fixP : Project := { name := "P", git := some { url := "u" } }

/-- Start state with `P` registered and its record matching `fixP`. -/
def fixStP : St :=
  { registered := ["P"], records := fun m => if m = "P" then some fixP else none }

/-- An archive spec with an explicit extension. -/
def fixArchSpec : ArchiveFileSpec := { url := "http://h/a", extension := some "tar.gz" }

/-- An archive spec with an explicit extension and a declared sha1 digest. -/
def fixArchSpecDigest : ArchiveFileSpec :=
  { url := "http://h/a", extension := some "tar.gz",
    digest := some { algorithm := HashAlg.sha1, value := "bb" } }

/-- A project whose record stores `fixArchSpec` as its archive origin. -/
def fixS : Project := { name := "S", archive := some fixArchSpec }

/-- An archive project `Q` used for the never-added witness. -/
def fixQ : Project := { name := "Q", archive := some fixArchSpec }

/-- Archive collaborators that all succeed; the computed hexdigest is
`aa`. -/
def fixArchEnvOk : ArchiveEnv :=
  { netOk := true, bodyOk := true, hashHex := fun _ => "aa", extractOk := true }

/-- A git environment where `v1.0` exists as a tag and every command
succeeds. -/
def fixGitEnv : GitEnv :=
  { headBefore := "h1", headAfter := "h2", tagExists := fun s => s == "v1.0",
    fetchOk := true, resetOk := true, cloneOk := true }

/-- A git spec pinned to ref `v1.0`. -/
def fixGitSpec : GitSpec := { url := "u", ref := some "v1.0" }

/-- A git project `G` with spec `fixGitSpec`. -/
def fixG : Project := { name := "G", git := some fixGitSpec }

/-- An oracle whose reindex attempts always fail with the external-process
error. -/
def oracleReindexFail : Oracle :=
  { dlGit := fun _ => .ok true, dlArchive := fun _ => .ok true,
    reindexOutcome := fun _ _ => some PyErr.calledProcessError }

/-- A reindex action that fails with the external-process error on every
attempt. -/
def actAlwaysCPE : Nat → Option PyErr := fun _ => some PyErr.calledProcessError

/-! ### Lemmas and claim theorems -/

lemma download_git_some (env : GitEnv) (desired : Project) (spec : GitSpec)
    (stored : Option Project) (tEx marker : Bool)
    (hgit : desired.git = some spec) :
    download_git env desired stored tEx marker
      = downloadGitBody env desired spec stored tEx marker := by
  unfold download_git
  rw [hgit]

lemma download_archive_ok_ext (env : ArchiveEnv) (spec : ArchiveFileSpec)
    (stored : Option Project) (fs : ArchFs) (ext : String)
    (hext : resolveExtension spec = Except.ok ext) :
    download_archive env spec stored fs = downloadArchiveBody env spec stored fs ext := by
  unfold download_archive
  rw [hext]

set_option maxHeartbeats 1600000 in
lemma download_archive_error_state (env : ArchiveEnv) (spec : ArchiveFileSpec)
    (stored : Option Project) (fs : ArchFs) (ext : String) (err : DLErr)
    (hext : resolveExtension spec = Except.ok ext) (hnet : env.netOk = true)
    (hfail : (download_archive env spec stored fs).1 = Except.error err) :
    (download_archive env spec stored fs).2.1 = archCleanup := by
  rw [download_archive_ok_ext env spec stored fs ext hext] at hfail ⊢
  unfold downloadArchiveBody at hfail ⊢
  simp only [hnet, Bool.not_true] at hfail ⊢
  split_ifs at hfail ⊢ <;> first | rfl | simp_all

lemma loadRecord_name {st : St} {n : String} {p : Project}
    (h : loadRecord st n = some p) : p.name = n := by
  unfold loadRecord at h
  rcases hr : st.records n with _ | q
  · rw [hr] at h; exact absurd h (by simp)
  · rw [hr] at h
    by_cases hq : q.name = n
    · simp [hq] at h; rw [← h]; exact hq
    · simp [hq] at h

lemma lookupProj_mem {l : List (String × Project)} {n : String} {v : Project}
    (h : lookupProj l n = some v) : (n, v) ∈ l := by
  induction l with
  | nil => simp [lookupProj] at h
  | cons kv rest ih =>
    rcases kv with ⟨k, w⟩
    by_cases hk : k = n
    · subst hk
      simp [lookupProj] at h
      simp [h]
    · simp [lookupProj, hk] at h
      exact List.mem_cons_of_mem _ (ih h)

lemma lookupProj_eq_none {l : List (String × Project)} {n : String}
    (h : n ∉ l.map Prod.fst) : lookupProj l n = none := by
  induction l with
  | nil => rfl
  | cons kv rest ih =>
    simp only [List.map_cons, List.mem_cons] at h
    push_neg at h
    rcases kv with ⟨k, w⟩
    have hk : ¬(k = n) := fun he => h.1 he.symm
    simp only [lookupProj]
    rw [if_neg hk]
    exact ih h.2

lemma validPairs_wf {st : St} {kv : String × Project}
    (h : kv ∈ validPairs st) : kv.2.name = kv.1 := by
  unfold validPairs at h
  rw [List.mem_filterMap] at h
  obtain ⟨m, _, hm⟩ := h
  rw [Option.map_eq_some'] at hm
  obtain ⟨q, hq, hqe⟩ := hm
  have := loadRecord_name hq
  rw [← hqe]
  simpa using this

lemma validPairs_loadRecord {st : St} {n : String} {v : Project}
    (h : (n, v) ∈ validPairs st) : loadRecord st n = some v := by
  unfold validPairs at h
  rw [List.mem_filterMap] at h
  obtain ⟨m, _, hm⟩ := h
  rw [Option.map_eq_some'] at hm
  obtain ⟨q, hq, hqe⟩ := hm
  obtain ⟨hmn, hqv⟩ := Prod.mk.injEq .. ▸ hqe
  rw [← hmn, hq, hqv]

lemma validPairs_keys (st : St) :
    (validPairs st).map Prod.fst
      = st.registered.filter (fun n => (loadRecord st n).isSome) := by
  unfold validPairs
  induction st.registered with
  | nil => rfl
  | cons m rest ih =>
    rcases hm : loadRecord st m with _ | q
    · simpa [List.filterMap_cons, hm] using ih
    · simpa [List.filterMap_cons, hm] using ih

lemma lookupProj_validPairs {st : St} {n : String} {v : Project}
    (h : lookupProj (validPairs st) n = some v) : loadRecord st n = some v :=
  validPairs_loadRecord (lookupProj_mem h)

lemma deleteAll_events (ps : List Project) (st : St) :
    (deleteAll st ps).2 = ps.flatMap (fun p => [Ev.apiDelete p.name, Ev.metaDelete p.name]) := by
  induction ps generalizing st with
  | nil => rfl
  | cons p rest ih => simp [deleteAll, deleteProject, ih]

lemma deleteAll_records_of_ne (ps : List Project) (st : St) {n : String}
    (h : ∀ p ∈ ps, p.name ≠ n) :
    (deleteAll st ps).1.records n = st.records n := by
  induction ps generalizing st with
  | nil => rfl
  | cons p rest ih =>
    have hp : p.name ≠ n := h p (List.mem_cons_self ..)
    have hdel : (deleteProject st p).1.records n = st.records n := by
      simp only [deleteProject]
      rw [if_neg (fun he : n = p.name => hp he.symm)]
    simp only [deleteAll]
    rw [ih _ (fun q hq => h q (List.mem_cons_of_mem _ hq)), hdel]

lemma deleteAll_records_none_trans (ps : List Project) (st : St) {n : String}
    (h : st.records n = none) : (deleteAll st ps).1.records n = none := by
  induction ps generalizing st with
  | nil => exact h
  | cons p rest ih =>
    simp only [deleteAll]
    apply ih
    simp [deleteProject, h]

lemma deleteAll_records_none (ps : List Project) (st : St) {n : String}
    (h : ∃ p ∈ ps, p.name = n) : (deleteAll st ps).1.records n = none := by
  induction ps generalizing st with
  | nil => simp at h
  | cons p rest ih =>
    by_cases hp : p.name = n
    · simp only [deleteAll]
      apply deleteAll_records_none_trans
      simp [deleteProject, hp]
    · obtain ⟨q, hq, hqn⟩ := h
      rcases List.mem_cons.mp hq with rfl | hq'
      · exact absurd hqn hp
      · simp only [deleteAll]
        exact ih _ ⟨q, hq', hqn⟩

lemma deleteAll_not_registered (ps : List Project) (st : St) {n : String}
    (h : n ∉ st.registered) : n ∉ (deleteAll st ps).1.registered := by
  induction ps generalizing st with
  | nil => exact h
  | cons p rest ih =>
    simp only [deleteAll]
    apply ih
    intro hmem
    exact h (List.erase_subset _ _ (by simpa [deleteProject] using hmem))

lemma retryFrom_attempts_le (ret : PyErr → Bool) (act : Nat → Option PyErr) :
    ∀ rem k, (retryFrom ret act rem k).2 ≤ k + rem := by
  intro rem
  induction rem with
  | zero =>
    intro k
    rcases hak : act k with _ | e <;> simp [retryFrom, hak]
  | succ r ih =>
    intro k
    rcases hak : act k with _ | e
    · simp [retryFrom, hak]
    · by_cases hre : ret e = true
      · have hrec := ih (k + 1)
        simp only [retryFrom, hak, hre, if_true]
        omega
      · simp [retryFrom, hak, hre]

lemma retryCall_attempts_le (ret : PyErr → Bool) (act : Nat → Option PyErr) (n : Nat)
    (hn : 1 ≤ n) : (retryCall ret n act).2 ≤ n := by
  have := retryFrom_attempts_le ret act (n - 1) 1
  unfold retryCall
  omega

lemma retryCall_first_not_retryable (ret : PyErr → Bool) (act : Nat → Option PyErr)
    (n : Nat) (e : PyErr) (h1 : act 1 = some e) (hr : ret e = false) :
    retryCall ret n act = (some e, 1) := by
  unfold retryCall
  rcases n - 1 with _ | r <;> simp [retryFrom, h1, hr]

lemma retryFrom_all_fail (ret : PyErr → Bool) (act : Nat → Option PyErr) (e : PyErr)
    (hall : ∀ j, act j = some e) (hr : ret e = true) :
    ∀ rem k, retryFrom ret act rem k = (some e, k + rem) := by
  intro rem
  induction rem with
  | zero =>
    intro k
    simp [retryFrom, hall k]
  | succ r ih =>
    intro k
    simp only [retryFrom, hall k, hr, if_true]
    rw [ih (k + 1)]
    congr 1
    omega

lemma retryCall_exhaust (ret : PyErr → Bool) (act : Nat → Option PyErr) (e : PyErr)
    (n : Nat) (hall : ∀ j, act j = some e) (hr : ret e = true) (hn : 1 ≤ n) :
    retryCall ret n act = (some e, n) := by
  unfold retryCall
  rw [retryFrom_all_fail ret act e hall hr (n - 1) 1]
  congr 1
  omega

lemma processOne_skip (o : Oracle) (r : Nat) (am : List (String × Project)) (st : St)
    (p : Project) (h : downloadOutcome o p ≠ Except.ok true) :
    processOne o r am st p
      = ((mismatchDelete am st p).1,
         (mismatchDelete am st p).2 ++ [Ev.download p.name], true) := by
  unfold processOne
  rcases hd : downloadOutcome o p with u | b
  · rfl
  · cases b
    · rfl
    · exact absurd hd h

lemma processOne_changed (o : Oracle) (r : Nat) (am : List (String × Project)) (st : St)
    (p : Project) (h : downloadOutcome o p = Except.ok true) :
    processOne o r am st p
      = ((if addNeededFor am p then addProject (mismatchDelete am st p).1 p
          else ((mismatchDelete am st p).1, [])).1,
         (mismatchDelete am st p).2 ++ [Ev.download p.name]
           ++ (if addNeededFor am p then addProject (mismatchDelete am st p).1 p
               else ((mismatchDelete am st p).1, [])).2
           ++ (List.range (retryCall retryIfCalledProcessError r (o.reindexOutcome p.name)).2).map
                (fun i => Ev.reindexAttempt p.name (i + 1)),
         (retryCall retryIfCalledProcessError r (o.reindexOutcome p.name)).1.isNone) := by
  unfold processOne
  rw [h]
  rcases hrc : (retryCall retryIfCalledProcessError r (o.reindexOutcome p.name)).1 with _ | e
  · simp [hrc]
  · simp [hrc]

lemma mismatchDelete_none (am : List (String × Project)) (st : St) (p : Project)
    (h : lookupProj am p.name = none) : mismatchDelete am st p = (st, []) := by
  unfold mismatchDelete
  rw [h]

lemma mismatchDelete_same (am : List (String × Project)) (st : St) (p : Project)
    (h : lookupProj am p.name = some p) : mismatchDelete am st p = (st, []) := by
  unfold mismatchDelete
  rw [h]
  simp

lemma mismatchDelete_diff (am : List (String × Project)) (st : St) (p a : Project)
    (h : lookupProj am p.name = some a) (hne : a ≠ p) :
    mismatchDelete am st p = deleteProject st a := by
  unfold mismatchDelete
  rw [h]
  simp [hne]

lemma addNeededFor_none (am : List (String × Project)) (p : Project)
    (h : lookupProj am p.name = none) : addNeededFor am p = true := by
  unfold addNeededFor
  rw [h]

lemma addNeededFor_same (am : List (String × Project)) (p : Project)
    (h : lookupProj am p.name = some p) : addNeededFor am p = false := by
  unfold addNeededFor
  rw [h]
  simp

lemma mismatchDelete_pname (am : List (String × Project)) (st : St) (p : Project)
    (amWf : ∀ kv ∈ am, (kv.2).name = kv.1) :
    ∀ e ∈ (mismatchDelete am st p).2, e.pname = p.name := by
  intro e he
  unfold mismatchDelete at he
  rcases hl : lookupProj am p.name with _ | a
  · rw [hl] at he
    simp at he
  · rw [hl] at he
    by_cases hap : a = p
    · simp [hap] at he
    · have hname : a.name = p.name := amWf (p.name, a) (lookupProj_mem hl)
      simp [hap, deleteProject] at he
      rcases he with he | he <;> simp [he, Ev.pname, hname]

lemma mismatchDelete_no_add (am : List (String × Project)) (st : St) (p : Project) :
    ∀ e ∈ (mismatchDelete am st p).2, e.isAddOrReindex = false := by
  intro e he
  unfold mismatchDelete at he
  rcases hl : lookupProj am p.name with _ | a
  · rw [hl] at he
    simp at he
  · rw [hl] at he
    by_cases hap : a = p
    · simp [hap] at he
    · simp [hap, deleteProject] at he
      rcases he with he | he <;> simp [he, Ev.isAddOrReindex]

lemma mismatchDelete_records_ne (am : List (String × Project)) (st : St) (p : Project)
    {n : String} (amWf : ∀ kv ∈ am, (kv.2).name = kv.1) (hn : n ≠ p.name) :
    (mismatchDelete am st p).1.records n = st.records n := by
  rcases hl : lookupProj am p.name with _ | a
  · rw [mismatchDelete_none am st p hl]
  · by_cases hap : a = p
    · rw [mismatchDelete_same am st p (hap ▸ hl)]
    · have hname : a.name = p.name := amWf (p.name, a) (lookupProj_mem hl)
      rw [mismatchDelete_diff am st p a hl hap]
      simp only [deleteProject]
      rw [if_neg (fun he : n = a.name => hn (he.trans hname))]

lemma mismatchDelete_not_registered (am : List (String × Project)) (st : St) (p : Project)
    {n : String} (hn : n ∉ st.registered) :
    n ∉ (mismatchDelete am st p).1.registered := by
  rcases hl : lookupProj am p.name with _ | a
  · rw [mismatchDelete_none am st p hl]
    exact hn
  · by_cases hap : a = p
    · rw [mismatchDelete_same am st p (hap ▸ hl)]
      exact hn
    · rw [mismatchDelete_diff am st p a hl hap]
      simp only [deleteProject]
      intro hmem
      exact hn (List.erase_subset _ _ (by simpa using hmem))

lemma processOne_pname (o : Oracle) (r : Nat) (am : List (String × Project)) (st : St)
    (p : Project) (amWf : ∀ kv ∈ am, (kv.2).name = kv.1) :
    ∀ e ∈ (processOne o r am st p).2.1, e.pname = p.name := by
  intro e he
  by_cases hd : downloadOutcome o p = Except.ok true
  · rw [processOne_changed o r am st p hd] at he
    simp only [List.append_assoc, List.mem_append] at he
    rcases he with he | he | he | he
    · exact mismatchDelete_pname am st p amWf e he
    · simp at he
      simp [he, Ev.pname]
    · by_cases ha : addNeededFor am p = true
      · simp [ha, addProject] at he
        rcases he with he | he <;> simp [he, Ev.pname]
      · simp [ha] at he
    · simp at he
      obtain ⟨i, _, hei⟩ := he
      simp [← hei, Ev.pname]
  · rw [processOne_skip o r am st p hd] at he
    simp only [List.mem_append] at he
    rcases he with he | he
    · exact mismatchDelete_pname am st p amWf e he
    · simp at he
      simp [he, Ev.pname]

lemma processOne_records_ne (o : Oracle) (r : Nat) (am : List (String × Project)) (st : St)
    (p : Project) {n : String} (amWf : ∀ kv ∈ am, (kv.2).name = kv.1) (hn : n ≠ p.name) :
    (processOne o r am st p).1.records n = st.records n := by
  by_cases hd : downloadOutcome o p = Except.ok true
  · rw [processOne_changed o r am st p hd]
    by_cases ha : addNeededFor am p = true
    · simp only [ha, if_true, addProject]
      rw [if_neg hn]
      exact mismatchDelete_records_ne am st p amWf hn
    · simp only [ha]
      simp
      exact mismatchDelete_records_ne am st p amWf hn
  · rw [processOne_skip o r am st p hd]
    exact mismatchDelete_records_ne am st p amWf hn

lemma processOne_not_registered (o : Oracle) (r : Nat) (am : List (String × Project))
    (st : St) (p : Project) {n : String} (hn : n ∉ st.registered)
    (hq : p.name = n → downloadOutcome o p ≠ Except.ok true) :
    n ∉ (processOne o r am st p).1.registered := by
  by_cases hd : downloadOutcome o p = Except.ok true
  · have hpn : p.name ≠ n := fun he => hq he hd
    rw [processOne_changed o r am st p hd]
    by_cases ha : addNeededFor am p = true
    · simp only [ha, if_true, addProject]
      intro hmem
      rcases List.mem_cons.mp (by simpa using hmem) with he | he
      · exact hpn he.symm
      · exact mismatchDelete_not_registered am st p hn he
    · simp only [ha]
      simp
      exact mismatchDelete_not_registered am st p hn
  · rw [processOne_skip o r am st p hd]
    exact mismatchDelete_not_registered am st p hn

lemma runLoop_nil (o : Oracle) (r : Nat) (am : List (String × Project)) (st : St) :
    runLoop o r am [] st = (st, [], true) := rfl

lemma runLoop_cons_true (o : Oracle) (r : Nat) (am : List (String × Project)) (st : St)
    (p : Project) (rest : List Project) (hc : (processOne o r am st p).2.2 = true) :
    runLoop o r am (p :: rest) st
      = ((runLoop o r am rest (processOne o r am st p).1).1,
         (processOne o r am st p).2.1
           ++ (runLoop o r am rest (processOne o r am st p).1).2.1,
         (runLoop o r am rest (processOne o r am st p).1).2.2) := by
  simp only [runLoop]
  rw [if_pos hc]

lemma runLoop_cons_false (o : Oracle) (r : Nat) (am : List (String × Project)) (st : St)
    (p : Project) (rest : List Project) (hc : (processOne o r am st p).2.2 = false) :
    runLoop o r am (p :: rest) st
      = ((processOne o r am st p).1, (processOne o r am st p).2.1, false) := by
  simp only [runLoop]
  rw [if_neg (by simp [hc])]

lemma runLoop_named (o : Oracle) (r : Nat) (am : List (String × Project))
    (amWf : ∀ kv ∈ am, (kv.2).name = kv.1) (nm : String) (P : Ev → Prop)
    (todo : List Project)
    (hq : ∀ q ∈ todo, q.name = nm →
      ∀ (st1 : St) (e : Ev), e ∈ (processOne o r am st1 q).2.1 → P e) :
    ∀ (st : St) (e : Ev), e ∈ (runLoop o r am todo st).2.1 → e.pname = nm → P e := by
  induction todo with
  | nil =>
    intro st e he
    rw [runLoop_nil] at he
    simp at he
  | cons q rest ih =>
    intro st e he hpn
    have hq1 : ∀ q1 ∈ rest, q1.name = nm →
        ∀ (st1 : St) (e1 : Ev), e1 ∈ (processOne o r am st1 q1).2.1 → P e1 :=
      fun q1 hq1m => hq q1 (List.mem_cons_of_mem _ hq1m)
    have hhead : e ∈ (processOne o r am st q).2.1 → P e := by
      intro hmem
      by_cases hname : q.name = nm
      · exact hq q (List.mem_cons_self ..) hname st e hmem
      · have := processOne_pname o r am st q amWf e hmem
        rw [hpn] at this
        exact absurd this.symm hname
    by_cases hc : (processOne o r am st q).2.2 = true
    · rw [runLoop_cons_true o r am st q rest hc] at he
      rcases List.mem_append.mp he with hmem | hmem
      · exact hhead hmem
      · exact ih hq1 _ e hmem hpn
    · rw [runLoop_cons_false o r am st q rest (by simpa using hc)] at he
      exact hhead he

lemma runLoop_records (o : Oracle) (r : Nat) (am : List (String × Project))
    (amWf : ∀ kv ∈ am, (kv.2).name = kv.1) (nm : String) (todo : List Project)
    (hq : ∀ q ∈ todo, q.name ≠ nm) :
    ∀ st : St, (runLoop o r am todo st).1.records nm = st.records nm := by
  induction todo with
  | nil =>
    intro st
    rw [runLoop_nil]
  | cons q rest ih =>
    intro st
    have hqr : ∀ q1 ∈ rest, q1.name ≠ nm := fun q1 h => hq q1 (List.mem_cons_of_mem _ h)
    have hhead : (processOne o r am st q).1.records nm = st.records nm :=
      processOne_records_ne o r am st q amWf
        (fun he => hq q (List.mem_cons_self ..) he.symm)
    by_cases hc : (processOne o r am st q).2.2 = true
    · rw [runLoop_cons_true o r am st q rest hc]
      simp only
      rw [ih hqr _, hhead]
    · rw [runLoop_cons_false o r am st q rest (by simpa using hc)]
      exact hhead

lemma runLoop_not_registered (o : Oracle) (r : Nat) (am : List (String × Project))
    (nm : String) (todo : List Project)
    (hq : ∀ q ∈ todo, q.name = nm → downloadOutcome o q ≠ Except.ok true) :
    ∀ st : St, nm ∉ st.registered → nm ∉ (runLoop o r am todo st).1.registered := by
  induction todo with
  | nil =>
    intro st hn
    rw [runLoop_nil]
    exact hn
  | cons q rest ih =>
    intro st hn
    have hqr : ∀ q1 ∈ rest, q1.name = nm → downloadOutcome o q1 ≠ Except.ok true :=
      fun q1 h => hq q1 (List.mem_cons_of_mem _ h)
    have hhead : nm ∉ (processOne o r am st q).1.registered :=
      processOne_not_registered o r am st q hn (hq q (List.mem_cons_self ..))
    by_cases hc : (processOne o r am st q).2.2 = true
    · rw [runLoop_cons_true o r am st q rest hc]
      exact ih hqr _ hhead
    · rw [runLoop_cons_false o r am st q rest (by simpa using hc)]
      exact hhead

lemma mainRun_eq (o : Oracle) (r : Nat) (expected : List Project) (st0 : St) :
    mainRun o r expected st0
      = ((runLoop o r (validPairs st0) expected
            (purgeExtras expected (validPairs st0) (purgeInvalid st0).1).1).1,
         (purgeInvalid st0).2
           ++ (purgeExtras expected (validPairs st0) (purgeInvalid st0).1).2
           ++ (runLoop o r (validPairs st0) expected
                (purgeExtras expected (validPairs st0) (purgeInvalid st0).1).1).2.1,
         (runLoop o r (validPairs st0) expected
            (purgeExtras expected (validPairs st0) (purgeInvalid st0).1).1).2.2) := rfl

lemma deleteAll_count_api (n : String) (ps : List Project) (st : St) :
    ((deleteAll st ps).2).count (Ev.apiDelete n) = (ps.map (fun p => p.name)).count n := by
  induction ps generalizing st with
  | nil => rfl
  | cons p rest ih =>
    simp only [deleteAll, deleteProject, List.map_cons]
    rw [List.count_append, List.count_cons, List.count_cons, List.count_cons]
    rw [ih]
    simp [List.count_nil]
    by_cases hp : p.name = n <;> simp [hp] <;> omega

lemma deleteAll_count_meta (n : String) (ps : List Project) (st : St) :
    ((deleteAll st ps).2).count (Ev.metaDelete n) = (ps.map (fun p => p.name)).count n := by
  induction ps generalizing st with
  | nil => rfl
  | cons p rest ih =>
    simp only [deleteAll, deleteProject, List.map_cons]
    rw [List.count_append, List.count_cons, List.count_cons, List.count_cons]
    rw [ih]
    simp [List.count_nil]
    by_cases hp : p.name = n <;> simp [hp] <;> omega

lemma deleteAll_events_shape (ps : List Project) (st : St) :
    ∀ e ∈ (deleteAll st ps).2,
      ∃ m ∈ ps.map (fun p => p.name), e = Ev.apiDelete m ∨ e = Ev.metaDelete m := by
  induction ps generalizing st with
  | nil =>
    intro e he
    simp [deleteAll] at he
  | cons p rest ih =>
    intro e he
    simp only [deleteAll, deleteProject] at he
    rcases List.mem_append.mp he with hmem | hmem
    · rcases (by simpa using hmem : e = Ev.apiDelete p.name ∨ e = Ev.metaDelete p.name)
        with he1 | he1
      · exact ⟨p.name, by simp, Or.inl he1⟩
      · exact ⟨p.name, by simp, Or.inr he1⟩
    · obtain ⟨m, hm, hor⟩ := ih _ e hmem
      exact ⟨m, by simp only [List.map_cons]; exact List.mem_cons_of_mem _ hm, hor⟩

lemma deleteAll_mem_api (ps : List Project) (st : St) {p : Project} (hp : p ∈ ps) :
    Ev.apiDelete p.name ∈ (deleteAll st ps).2 := by
  have := deleteAll_count_api p.name ps st
  have hmem : p.name ∈ ps.map (fun q => q.name) := List.mem_map_of_mem _ hp
  have hpos : 0 < (ps.map (fun q => q.name)).count p.name := List.count_pos_iff.mpr hmem
  exact List.count_pos_iff.mp (by omega)

lemma deleteAll_mem_meta (ps : List Project) (st : St) {p : Project} (hp : p ∈ ps) :
    Ev.metaDelete p.name ∈ (deleteAll st ps).2 := by
  have := deleteAll_count_meta p.name ps st
  have hmem : p.name ∈ ps.map (fun q => q.name) := List.mem_map_of_mem _ hp
  have hpos : 0 < (ps.map (fun q => q.name)).count p.name := List.count_pos_iff.mpr hmem
  exact List.count_pos_iff.mp (by omega)

lemma invalidNames_mem (st : St) (n : String) :
    n ∈ invalidNames st ↔ n ∈ st.registered ∧ loadRecord st n = none := by
  unfold invalidNames
  rw [List.mem_filter]
  simp [Option.isNone_iff_eq_none]

lemma validPairs_keys_mem (st : St) (n : String) :
    n ∈ (validPairs st).map Prod.fst ↔ n ∈ st.registered ∧ (loadRecord st n).isSome := by
  rw [validPairs_keys, List.mem_filter]

lemma invalidProjects_names (st : St) :
    (((invalidNames st).map (fun n => { name := n : Project })).map (fun p => p.name))
      = invalidNames st := by
  have hcomp : ((fun p : Project => p.name) ∘ fun n => ({ name := n } : Project)) = id := rfl
  rw [List.map_map, hcomp, List.map_id]

lemma extrasOf_keys (expected : List Project) (am : List (String × Project)) :
    (extrasOf expected am).map Prod.fst
      = (am.map Prod.fst).filter (fun n => !(expected.any (fun p => p.name == n))) := by
  unfold extrasOf
  induction am with
  | nil => rfl
  | cons kv rest ih =>
    by_cases hk : (expected.any (fun p => p.name == kv.1)) = true
    · simp only [List.filter_cons, List.map_cons, hk]
      simpa using ih
    · simp only [List.filter_cons, List.map_cons, Bool.not_eq_true] at hk ⊢
      rw [hk]
      simp only [Bool.not_false, if_true, List.map_cons]
      rw [ih]

lemma extrasOf_sub (expected : List Project) (am : List (String × Project)) :
    ∀ kv ∈ extrasOf expected am, kv ∈ am := by
  intro kv hkv
  exact List.mem_of_mem_filter hkv

lemma extrasOf_names (expected : List Project) (am : List (String × Project))
    (amWf : ∀ kv ∈ am, (kv.2).name = kv.1) :
    ((extrasOf expected am).map Prod.snd).map (fun p => p.name)
      = (extrasOf expected am).map Prod.fst := by
  rw [List.map_map]
  apply List.map_congr_left
  intro kv hkv
  exact amWf kv (extrasOf_sub expected am kv hkv)

lemma runLoop_no_named_events (o : Oracle) (r : Nat) (am : List (String × Project))
    (amWf : ∀ kv ∈ am, (kv.2).name = kv.1) (nm : String) (todo : List Project)
    (hq : ∀ q ∈ todo, q.name ≠ nm) :
    ∀ (st : St) (e : Ev), e ∈ (runLoop o r am todo st).2.1 → e.pname ≠ nm := by
  intro st e he hpn
  exact runLoop_named o r am amWf nm (fun _ => False) todo
    (fun q hqm hqn => absurd hqn (hq q hqm)) st e he hpn

lemma nodup_count_le_one {l : List String} (h : l.Nodup) (a : String) : l.count a ≤ 1 :=
  List.nodup_iff_count_le_one.mp h a

lemma mainRun_count (o : Oracle) (r : Nat) (expected : List Project) (st0 : St) (ev : Ev) :
    ((mainRun o r expected st0).2.1).count ev
      = ((purgeInvalid st0).2).count ev
        + ((purgeExtras expected (validPairs st0) (purgeInvalid st0).1).2).count ev
        + ((runLoop o r (validPairs st0) expected
             (purgeExtras expected (validPairs st0) (purgeInvalid st0).1).1).2.1).count ev := by
  rw [mainRun_eq]
  simp only [List.append_assoc, List.count_append]
  omega

/-- Claim C8: at the start of every run, each actual name with no resolvable
record is deleted from both the indexing service and the metadata store
before the main loop, and every actual name absent from the desired set gets
exactly one delete call, its record removed, and no other side effects. -/
theorem c8_invalid_purge_and_extras_deleted_once
    (o : Oracle) (r : Nat) (expected : List Project) (st0 : St) (n : String)
    (hnodup : st0.registered.Nodup) (hreg : n ∈ st0.registered) :
    (loadRecord st0 n = none →
       Ev.apiDelete n ∈ (getProjects st0).2.2 ∧
       Ev.metaDelete n ∈ (getProjects st0).2.2 ∧
       lookupProj (getProjects st0).1 n = none ∧
       ((getProjects st0).2.1).records n = none) ∧
    ((∀ p ∈ expected, p.name ≠ n) →
       ((mainRun o r expected st0).2.1).count (Ev.apiDelete n) = 1 ∧
       ((mainRun o r expected st0).2.1).count (Ev.metaDelete n) = 1 ∧
       ((mainRun o r expected st0).1).records n = none ∧
       (∀ e ∈ (mainRun o r expected st0).2.1,
         e.pname = n → e = Ev.apiDelete n ∨ e = Ev.metaDelete n)) := by
  have amWf : ∀ kv ∈ validPairs st0, (kv.2).name = kv.1 := fun kv h => validPairs_wf h
  constructor
  · intro hinv
    have hin : n ∈ invalidNames st0 := (invalidNames_mem st0 n).mpr ⟨hreg, hinv⟩
    have hp1 : ({ name := n } : Project) ∈ (invalidNames st0).map
        (fun m => { name := m : Project }) := List.mem_map_of_mem _ hin
    refine ⟨deleteAll_mem_api _ st0 hp1, deleteAll_mem_meta _ st0 hp1, ?_, ?_⟩
    · apply lookupProj_eq_none
      intro hmem
      have := ((validPairs_keys_mem st0 n).mp hmem).2
      rw [hinv] at this
      simp at this
    · exact deleteAll_records_none _ st0 ⟨{ name := n }, hp1, rfl⟩
  · intro hnd
    have hC3a : ((runLoop o r (validPairs st0) expected
        (purgeExtras expected (validPairs st0) (purgeInvalid st0).1).1).2.1).count
          (Ev.apiDelete n) = 0 :=
      List.count_eq_zero.mpr (fun hmem =>
        runLoop_no_named_events o r (validPairs st0) amWf n expected hnd _ _ hmem rfl)
    have hC3m : ((runLoop o r (validPairs st0) expected
        (purgeExtras expected (validPairs st0) (purgeInvalid st0).1).1).2.1).count
          (Ev.metaDelete n) = 0 :=
      List.count_eq_zero.mpr (fun hmem =>
        runLoop_no_named_events o r (validPairs st0) amWf n expected hnd _ _ hmem rfl)
    have hC1a : ((purgeInvalid st0).2).count (Ev.apiDelete n)
        = (invalidNames st0).count n := by
      unfold purgeInvalid
      rw [deleteAll_count_api, invalidProjects_names]
    have hC1m : ((purgeInvalid st0).2).count (Ev.metaDelete n)
        = (invalidNames st0).count n := by
      unfold purgeInvalid
      rw [deleteAll_count_meta, invalidProjects_names]
    have hC2a : ∀ st1 : St, ((purgeExtras expected (validPairs st0) st1).2).count
        (Ev.apiDelete n) = ((extrasOf expected (validPairs st0)).map Prod.fst).count n := by
      intro st1
      unfold purgeExtras
      rw [deleteAll_count_api, extrasOf_names _ _ amWf]
    have hC2m : ∀ st1 : St, ((purgeExtras expected (validPairs st0) st1).2).count
        (Ev.metaDelete n) = ((extrasOf expected (validPairs st0)).map Prod.fst).count n := by
      intro st1
      unfold purgeExtras
      rw [deleteAll_count_meta, extrasOf_names _ _ amWf]
    have hkeysNodup : ((validPairs st0).map Prod.fst).Nodup := by
      rw [validPairs_keys]
      exact hnodup.filter _
    have hloop : (runLoop o r (validPairs st0) expected
        (purgeExtras expected (validPairs st0) (purgeInvalid st0).1).1).1.records n
          = (purgeExtras expected (validPairs st0) (purgeInvalid st0).1).1.records n :=
      runLoop_records o r (validPairs st0) amWf n expected hnd _
    have hshape : ∀ e ∈ (mainRun o r expected st0).2.1,
        e.pname = n → e = Ev.apiDelete n ∨ e = Ev.metaDelete n := by
      intro e he hpn
      rw [mainRun_eq] at he
      simp only [List.append_assoc, List.mem_append] at he
      rcases he with he | he | he
      · obtain ⟨m, _, hor⟩ := deleteAll_events_shape _ st0 e he
        rcases hor with rfl | rfl
        · left; simp [Ev.pname] at hpn; rw [hpn]
        · right; simp [Ev.pname] at hpn; rw [hpn]
      · obtain ⟨m, _, hor⟩ := deleteAll_events_shape _ _ e he
        rcases hor with rfl | rfl
        · left; simp [Ev.pname] at hpn; rw [hpn]
        · right; simp [Ev.pname] at hpn; rw [hpn]
      · exact absurd hpn (runLoop_no_named_events o r (validPairs st0) amWf n expected hnd _ e he)
    rcases hv : loadRecord st0 n with _ | v
    · have hin : n ∈ invalidNames st0 := (invalidNames_mem st0 n).mpr ⟨hreg, hv⟩
      have hinvCount : (invalidNames st0).count n = 1 := by
        have hnodupInv : (invalidNames st0).Nodup := by
          unfold invalidNames
          exact hnodup.filter _
        have h1 := nodup_count_le_one hnodupInv n
        have h2 := List.count_pos_iff.mpr hin
        omega
      have hextraCount : ((extrasOf expected (validPairs st0)).map Prod.fst).count n = 0 := by
        apply List.count_eq_zero.mpr
        rw [extrasOf_keys]
        intro hmem
        have := ((validPairs_keys_mem st0 n).mp (List.mem_of_mem_filter hmem)).2
        rw [hv] at this
        simp at this
      refine ⟨?_, ?_, ?_, hshape⟩
      · rw [mainRun_count, hC1a, hC2a, hC3a, hinvCount, hextraCount]
      · rw [mainRun_count, hC1m, hC2m, hC3m, hinvCount, hextraCount]
      · have hst1 : (purgeInvalid st0).1.records n = none := by
          apply deleteAll_records_none
          exact ⟨{ name := n }, List.mem_map_of_mem _ hin, rfl⟩
        have hst2 : (purgeExtras expected (validPairs st0) (purgeInvalid st0).1).1.records n
            = none := deleteAll_records_none_trans _ _ hst1
        rw [mainRun_eq]
        simpa [hst2] using hloop.trans hst2
    · have hnotin : n ∉ invalidNames st0 := by
        intro hmem
        have := ((invalidNames_mem st0 n).mp hmem).2
        rw [hv] at this
        exact absurd this (by simp)
      have hinvCount : (invalidNames st0).count n = 0 := List.count_eq_zero.mpr hnotin
      have hvk : n ∈ (validPairs st0).map Prod.fst :=
        (validPairs_keys_mem st0 n).mpr ⟨hreg, by rw [hv]; rfl⟩
      have hany : expected.any (fun p => p.name == n) = false := by
        rw [List.any_eq_false]
        intro p hp
        simpa using hnd p hp
      have hmemx : n ∈ (extrasOf expected (validPairs st0)).map Prod.fst := by
        rw [extrasOf_keys]
        rw [List.mem_filter]
        exact ⟨hvk, by rw [hany]; rfl⟩
      have hextraNodup : ((extrasOf expected (validPairs st0)).map Prod.fst).Nodup := by
        rw [extrasOf_keys]
        exact hkeysNodup.filter _
      have hextraCount : ((extrasOf expected (validPairs st0)).map Prod.fst).count n = 1 := by
        have h1 := nodup_count_le_one hextraNodup n
        have h2 := List.count_pos_iff.mpr hmemx
        omega
      refine ⟨?_, ?_, ?_, hshape⟩
      · rw [mainRun_count, hC1a, hC2a, hC3a, hinvCount, hextraCount]
      · rw [mainRun_count, hC1m, hC2m, hC3m, hinvCount, hextraCount]
      · obtain ⟨kv, hkv, hkvn⟩ := List.mem_map.mp hmemx
        have hname : (kv.2).name = n := by
          rw [amWf kv (extrasOf_sub _ _ kv hkv)]
          exact hkvn
        have hst2 : (purgeExtras expected (validPairs st0) (purgeInvalid st0).1).1.records n
            = none := by
          apply deleteAll_records_none
          exact ⟨kv.2, List.mem_map_of_mem _ hkv, hname⟩
        rw [mainRun_eq]
        simpa [hst2] using hloop.trans hst2

/-- Claim C2: when acquisition reports no change and the project is still
registered with its persisted spec equal to the desired spec, no further
operation (no add, no persist, no reindex) is performed for that project in
that run. -/
theorem c2_no_change_still_registered_noop
    (o : Oracle) (r : Nat) (expected : List Project) (st0 : St) (p : Project)
    (hexp : p ∈ expected)
    (huniq : ∀ q ∈ expected, q.name = p.name → q = p)
    (hreg : lookupProj (validPairs st0) p.name = some p)
    (hdl : downloadOutcome o p = Except.ok false) :
    ((mainRun o r expected st0).2.1).countP
        (fun e => e.pname == p.name && e.isAddOrReindex) = 0 ∧
    (∀ e ∈ (mainRun o r expected st0).2.1, e.pname = p.name → e = Ev.download p.name) := by
  have amWf : ∀ kv ∈ validPairs st0, (kv.2).name = kv.1 := fun kv h => validPairs_wf h
  have hvalid : loadRecord st0 p.name = some p := lookupProj_validPairs hreg
  have hmain : ∀ e ∈ (mainRun o r expected st0).2.1, e.pname = p.name →
      e = Ev.download p.name := by
    intro e he hpn
    rw [mainRun_eq] at he
    simp only [List.append_assoc, List.mem_append] at he
    rcases he with he | he | he
    · obtain ⟨m, hm, hor⟩ := deleteAll_events_shape _ st0 e he
      rw [invalidProjects_names] at hm
      have hmp : m = p.name := by
        rcases hor with rfl | rfl <;> simpa [Ev.pname] using hpn
      rw [hmp] at hm
      have := ((invalidNames_mem st0 p.name).mp hm).2
      rw [hvalid] at this
      cases this
    · obtain ⟨m, hm, hor⟩ := deleteAll_events_shape _ _ e he
      rw [extrasOf_names _ _ amWf] at hm
      have hmp : m = p.name := by
        rcases hor with rfl | rfl <;> simpa [Ev.pname] using hpn
      rw [hmp, extrasOf_keys, List.mem_filter] at hm
      have hany : expected.any (fun q => q.name == p.name) = true :=
        List.any_eq_true.mpr ⟨p, hexp, by simp⟩
      rw [hany] at hm
      simpa using hm.2
    · refine runLoop_named o r (validPairs st0) amWf p.name
        (fun e1 => e1 = Ev.download p.name) expected ?_ _ e he hpn
      intro q hqm hqn st1 e1 he1
      have hq := huniq q hqm hqn
      subst hq
      rw [processOne_skip o r _ st1 q (by simp [hdl])] at he1
      rw [mismatchDelete_same _ _ _ hreg] at he1
      simpa using he1
  refine ⟨?_, hmain⟩
  apply List.countP_eq_zero.mpr
  intro e he
  by_cases hpn : e.pname = p.name
  · rw [hmain e he hpn]
    simp [Ev.pname, Ev.isAddOrReindex]
  · simp [hpn]

/-- Claim C10: a desired project that is not registered at the start of the
run and whose acquisition reports no change is neither added nor reindexed,
and is still unregistered at the end of the run. -/
theorem c10_unregistered_unchanged_never_added
    (o : Oracle) (r : Nat) (expected : List Project) (st0 : St) (p : Project)
    (hnreg : p.name ∉ st0.registered)
    (huniq : ∀ q ∈ expected, q.name = p.name → q = p)
    (hdl : downloadOutcome o p = Except.ok false) :
    ((mainRun o r expected st0).2.1).countP
        (fun e => e.pname == p.name && e.isAddOrReindex) = 0 ∧
    p.name ∉ (mainRun o r expected st0).1.registered ∧
    (∀ e ∈ (mainRun o r expected st0).2.1, e.pname = p.name → e = Ev.download p.name) := by
  have amWf : ∀ kv ∈ validPairs st0, (kv.2).name = kv.1 := fun kv h => validPairs_wf h
  have hkeys : p.name ∉ (validPairs st0).map Prod.fst := by
    intro hmem
    exact hnreg ((validPairs_keys_mem st0 p.name).mp hmem).1
  have hlp : lookupProj (validPairs st0) p.name = none := lookupProj_eq_none hkeys
  have hmain : ∀ e ∈ (mainRun o r expected st0).2.1, e.pname = p.name →
      e = Ev.download p.name := by
    intro e he hpn
    rw [mainRun_eq] at he
    simp only [List.append_assoc, List.mem_append] at he
    rcases he with he | he | he
    · obtain ⟨m, hm, hor⟩ := deleteAll_events_shape _ st0 e he
      rw [invalidProjects_names] at hm
      have hmp : m = p.name := by
        rcases hor with rfl | rfl <;> simpa [Ev.pname] using hpn
      rw [hmp] at hm
      exact absurd ((invalidNames_mem st0 p.name).mp hm).1 hnreg
    · obtain ⟨m, hm, hor⟩ := deleteAll_events_shape _ _ e he
      rw [extrasOf_names _ _ amWf] at hm
      have hmp : m = p.name := by
        rcases hor with rfl | rfl <;> simpa [Ev.pname] using hpn
      rw [hmp, extrasOf_keys] at hm
      exact absurd ((validPairs_keys_mem st0 p.name).mp (List.mem_of_mem_filter hm)).1 hnreg
    · refine runLoop_named o r (validPairs st0) amWf p.name
        (fun e1 => e1 = Ev.download p.name) expected ?_ _ e he hpn
      intro q hqm hqn st1 e1 he1
      have hq := huniq q hqm hqn
      subst hq
      rw [processOne_skip o r _ st1 q (by simp [hdl])] at he1
      rw [mismatchDelete_none _ _ _ hlp] at he1
      simpa using he1
  refine ⟨?_, ?_, hmain⟩
  · apply List.countP_eq_zero.mpr
    intro e he
    by_cases hpn : e.pname = p.name
    · rw [hmain e he hpn]
      simp [Ev.pname, Ev.isAddOrReindex]
    · simp [hpn]
  · have h1 : p.name ∉ (purgeInvalid st0).1.registered :=
      deleteAll_not_registered _ st0 hnreg
    have h2 : p.name ∉ (purgeExtras expected (validPairs st0) (purgeInvalid st0).1).1.registered :=
      deleteAll_not_registered _ _ h1
    have hq : ∀ q ∈ expected, q.name = p.name → downloadOutcome o q ≠ Except.ok true := by
      intro q hqm hqn
      have hq := huniq q hqm hqn
      subst hq
      simp [hdl]
    exact runLoop_not_registered o r (validPairs st0) p.name expected hq _ h2

/-- Claim C7: an archive failure during download, verification, or
extraction removes both the archive file and the target directory before
the error propagates, and the loop issues no add or reindex for a project
whose download fails. -/
theorem c7_archive_failure_cleanup_and_no_add
    (env : ArchiveEnv) (spec : ArchiveFileSpec) (stored : Option Project) (fs : ArchFs)
    (ext : String) (err : DLErr)
    (o : Oracle) (r : Nat) (expected : List Project) (st0 : St) (p : Project)
    (hext : resolveExtension spec = Except.ok ext)
    (hnet : env.netOk = true)
    (hfail : (download_archive env spec stored fs).1 = Except.error err)
    (huniq : ∀ q ∈ expected, q.name = p.name → q = p)
    (hdl : downloadOutcome o p = Except.error ()) :
    (download_archive env spec stored fs).2.1 = archCleanup ∧
    ((mainRun o r expected st0).2.1).countP
        (fun e => e.pname == p.name && e.isAddOrReindex) = 0 := by
  have amWf : ∀ kv ∈ validPairs st0, (kv.2).name = kv.1 := fun kv h => validPairs_wf h
  constructor
  · exact download_archive_error_state env spec stored fs ext err hext hnet hfail
  · apply List.countP_eq_zero.mpr
    intro e he
    rw [mainRun_eq] at he
    simp only [List.append_assoc, List.mem_append] at he
    rcases he with he | he | he
    · obtain ⟨m, _, hor⟩ := deleteAll_events_shape _ st0 e he
      rcases hor with rfl | rfl <;> simp [Ev.isAddOrReindex]
    · obtain ⟨m, _, hor⟩ := deleteAll_events_shape _ _ e he
      rcases hor with rfl | rfl <;> simp [Ev.isAddOrReindex]
    · by_cases hpn : e.pname = p.name
      · have hno : e.isAddOrReindex = false := by
          refine runLoop_named o r (validPairs st0) amWf p.name
            (fun e1 => e1.isAddOrReindex = false) expected ?_ _ e he hpn
          intro q hqm hqn st1 e1 he1
          have hq := huniq q hqm hqn
          subst hq
          rw [processOne_skip o r _ st1 q (by simp [hdl])] at he1
          rcases List.mem_append.mp he1 with hmem | hmem
          · exact mismatchDelete_no_add _ _ _ e1 hmem
          · simp only [List.mem_singleton] at hmem
            rw [hmem]
            rfl
        simp [hno]
      · simp [hpn]

/-- Claim C1, counterexample: with record `fixOldA` differing from the
desired `fixNewA` and a failing download, the run deletes the project from
the indexing service and also deletes the metadata record: afterwards no
record exists, although no overwrite happened, contradicting the claim that
the record is left unchanged. -/
theorem c1_counterexample :
    fixStA.records "A" = some fixOldA ∧ fixOldA ≠ fixNewA ∧
    (mainRun oracleFail 3 [fixNewA] fixStA).2.1
      = [Ev.apiDelete "A", Ev.metaDelete "A", Ev.download "A"] ∧
    (mainRun oracleFail 3 [fixNewA] fixStA).1.records "A" = none := by
  refine ⟨rfl, by decide, rfl, rfl⟩

/-- Claim C1, amended: when the loaded record differs from the desired
spec, the project is deleted from the indexing service and its metadata
record is deleted as well; the project counts as not registered for the
rest of the iteration, so a changed download triggers the add operation. -/
theorem c1_amended_mismatch_deletes_record
    (o : Oracle) (r : Nat) (am : List (String × Project)) (st : St) (p a : Project)
    (hlk : lookupProj am p.name = some a) (hne : a ≠ p) (hname : a.name = p.name) :
    List.take 2 (processOne o r am st p).2.1
        = [Ev.apiDelete p.name, Ev.metaDelete p.name] ∧
    (mismatchDelete am st p).1.records p.name = none ∧
    (downloadOutcome o p = Except.ok true →
      Ev.apiAdd p.name ∈ (processOne o r am st p).2.1) := by
  have hdel : mismatchDelete am st p = deleteProject st a := mismatchDelete_diff am st p a hlk hne
  refine ⟨?_, ?_, ?_⟩
  · by_cases hd : downloadOutcome o p = Except.ok true
    · rw [processOne_changed o r am st p hd, hdel]
      simp [deleteProject, hname]
    · rw [processOne_skip o r am st p hd, hdel]
      simp [deleteProject, hname]
  · rw [hdel]
    simp only [deleteProject]
    rw [if_pos hname.symm]
  · intro hd
    rw [processOne_changed o r am st p hd]
    have hadd : addNeededFor am p = true := by
      unfold addNeededFor
      rw [hlk]
      simp [hne]
    simp [hadd, addProject]

/-- Claim C4, counterexample: a desired set containing only the zero-origin
project `bad` does not abort before processing: the extra project `E` is
still deleted, the bad project is merely skipped, and the run completes. -/
theorem c4_counterexample :
    fixBad.git = none ∧ fixBad.archive = none ∧
    (mainRun oracleChanged 3 [fixBad] fixStE).2.1
      = [Ev.apiDelete "E", Ev.metaDelete "E", Ev.download "bad"] ∧
    (mainRun oracleChanged 3 [fixBad] fixStE).2.2 = true := by
  refine ⟨rfl, rfl, rfl, rfl⟩

/-- Claim C4, amended: a desired project with zero populated origins makes
the acquisition step raise an error, which the loop catches for that
project alone: the project is skipped (no add, no persist, no reindex) and
the run continues with the remaining projects. -/
theorem c4_amended_zero_origin_skipped
    (o : Oracle) (r : Nat) (am : List (String × Project)) (st : St) (p : Project)
    (hgit : p.git = none) (harch : p.archive = none) :
    downloadOutcome o p = Except.error () ∧
    (processOne o r am st p).2.2 = true ∧
    ((processOne o r am st p).2.1).countP (fun e => e.isAddOrReindex) = 0 := by
  have hdl : downloadOutcome o p = Except.error () := by
    unfold downloadOutcome
    rw [hgit, harch]
  refine ⟨hdl, ?_, ?_⟩
  · rw [processOne_skip o r am st p (by simp [hdl])]
  · rw [processOne_skip o r am st p (by simp [hdl])]
    apply List.countP_eq_zero.mpr
    intro e he
    rcases List.mem_append.mp he with hmem | hmem
    · simp [mismatchDelete_no_add am st p e hmem]
    · simp only [List.mem_singleton] at hmem
      rw [hmem]
      simp [Ev.isAddOrReindex]

/-- Claim C9: the retry policy wraps only the reindex invocation: at most
the configured number of attempts (default 3), retries only the error class
of a nonzero external-process exit, waits bounded by the 60-unit cap, and
re-raises the final failure (aborting the run) after exhausting all
attempts, while the add operation is not retried. -/
theorem c9_retry_policy_only_reindex
    (act : Nat → Option PyErr) (n : Nat) (u : ℚ) (k : Nat)
    (o : Oracle) (r : Nat) (am : List (String × Project)) (st : St) (p : Project)
    (hn : 1 ≤ n) (hu0 : 0 ≤ u) (hu1 : u ≤ 1)
    (hlk : lookupProj am p.name = none)
    (hdl : downloadOutcome o p = Except.ok true)
    (hre : ∀ j, o.reindexOutcome p.name j = some PyErr.calledProcessError)
    (hr : 1 ≤ r) :
    defaultReindexRetries = 3 ∧
    (retryCall retryIfCalledProcessError n act).2 ≤ n ∧
    (act 1 = some PyErr.otherError →
      retryCall retryIfCalledProcessError n act = (some PyErr.otherError, 1)) ∧
    ((∀ j, act j = some PyErr.calledProcessError) →
      retryCall retryIfCalledProcessError n act = (some PyErr.calledProcessError, n)) ∧
    0 ≤ waitExponentialJitter 60 u k ∧ waitExponentialJitter 60 u k ≤ 60 ∧
    processOne o r am st p
      = ((addProject st p).1,
         [Ev.download p.name, Ev.apiAdd p.name, Ev.persist p.name]
           ++ (List.range r).map (fun i => Ev.reindexAttempt p.name (i + 1)),
         false) := by
  refine ⟨rfl, retryCall_attempts_le _ act n hn, ?_, ?_, ?_, ?_, ?_⟩
  · intro h1
    exact retryCall_first_not_retryable _ act n _ h1 rfl
  · intro hall
    exact retryCall_exhaust _ act _ n hall rfl hn
  · exact le_max_left 0 _
  · exact max_le (by norm_num) (min_le_right _ _)
  · have hretry : retryCall retryIfCalledProcessError r (o.reindexOutcome p.name)
        = (some PyErr.calledProcessError, r) :=
      retryCall_exhaust _ _ _ r hre rfl hr
    rw [processOne_changed o r am st p hdl]
    rw [mismatchDelete_none am st p hlk, addNeededFor_none am p hlk]
    simp [hretry, addProject, mismatchDelete_none am st p hlk]

/-- Claim C3, counterexample: the computed sha1 hexdigest of the empty file
compared against the same hex value in upper case: the two are equal under
case-insensitive comparison, yet verification fails, because the source
compares the strings exactly. -/
theorem c3_counterexample :
    verify_hash "da39a3ee5e6b4b0d3255bfef95601890afd80709"
        { algorithm := HashAlg.sha1,
          value := "DA39A3EE5E6B4B0D3255BFEF95601890AFD80709" }
      = Except.error "Hash mismatch" ∧
    hexLower "da39a3ee5e6b4b0d3255bfef95601890afd80709"
      = hexLower "DA39A3EE5E6B4B0D3255BFEF95601890AFD80709" := by
  refine ⟨rfl, by decide⟩

/-- Claim C3, amended: verification succeeds exactly when the computed
hexdigest equals the declared value as strings, case-sensitively; any
difference, including a difference of letter case alone, is a verification
failure. -/
theorem c3_amended_hash_comparison_case_sensitive
    (computed : String) (d : HashSpec) :
    (verify_hash computed d = Except.ok () ↔ computed = d.value) ∧
    (verify_hash computed d = Except.error "Hash mismatch" ↔ computed ≠ d.value) := by
  unfold verify_hash
  by_cases h : computed = d.value <;> simp [h]

set_option maxHeartbeats 1600000 in
/-- Claim C5: when the target directory exists and the stored record has
the identical archive origin, acquisition returns no change with no network
activity and no filesystem mutation; otherwise the stale target directory
is removed before the download starts. -/
theorem c5_archive_equality_skip
    (env : ArchiveEnv) (spec : ArchiveFileSpec) (stored : Option Project) (fs : ArchFs)
    (old : Project) (ext : String)
    (hext : resolveExtension spec = Except.ok ext)
    (htgt : fs.targetExists = true) :
    (stored = some old → old.archive = some spec →
      download_archive env spec stored fs = (Except.ok false, fs, [])) ∧
    (storedArchiveMatches stored spec = false →
      List.take 2 (download_archive env spec stored fs).2.2
        = [ArchEvent.rmTargetStale, ArchEvent.netGet]) := by
  rw [download_archive_ok_ext env spec stored fs ext hext]
  constructor
  · intro hst harch
    have hmatch : storedArchiveMatches stored spec = true := by
      rw [hst]
      unfold storedArchiveMatches
      simp [harch]
    unfold downloadArchiveBody
    rw [htgt, hmatch]
    simp
  · intro hmatch
    unfold downloadArchiveBody
    rw [htgt, hmatch]
    simp only [Bool.and_false]
    split_ifs <;> simp_all

/-- Claim C6: the reuse path (fetch then reset, never delete plus clone) is
taken exactly when the target directory exists with its version-control
marker and the persisted record equals the desired spec; on it the ref,
defaulting to HEAD, resets via the tag namespace when the tag exists and
via the remote-tracking branch otherwise, and the result is changed iff the
HEAD commit id moved. -/
theorem c6_git_reuse_fetch_reset
    (env : GitEnv) (desired : Project) (spec : GitSpec) (stored : Option Project)
    (tEx marker : Bool)
    (hgit : desired.git = some spec) :
    ((GitAction.fetch ∈ (download_git env desired stored tEx marker).2)
        ↔ (tEx = true ∧ marker = true ∧ stored = some desired)) ∧
    (tEx = true → marker = true → stored = some desired →
      GitAction.rmTree ∉ (download_git env desired stored tEx marker).2 ∧
      ∀ d b, GitAction.clone d b ∉ (download_git env desired stored tEx marker).2) ∧
    (tEx = true → marker = true → stored = some desired →
      env.fetchOk = true → env.resetOk = true →
      download_git env desired stored tEx marker
        = (Except.ok (env.headBefore != env.headAfter),
           [GitAction.revParseHead, GitAction.fetch,
            GitAction.tagCheck (effectiveRef spec.ref),
            (if env.tagExists (effectiveRef spec.ref)
             then GitAction.resetTag (effectiveRef spec.ref)
             else GitAction.resetBranch (effectiveRef spec.ref)),
            GitAction.revParseHead])) := by
  rw [download_git_some env desired spec stored tEx marker hgit]
  unfold downloadGitBody
  by_cases hcond : (tEx && marker && (stored == some desired)) = true
  · have hc : tEx = true ∧ marker = true ∧ stored = some desired := by
      simp only [Bool.and_eq_true, beq_iff_eq] at hcond
      exact ⟨hcond.1.1, hcond.1.2, hcond.2⟩
    rw [if_pos hcond]
    refine ⟨?_, ?_, ?_⟩
    · constructor
      · intro _
        exact hc
      · intro _
        split_ifs <;>
          (by_cases htag : env.tagExists (effectiveRef spec.ref) = true <;> simp [htag])
    · intro _ _ _
      constructor
      · split_ifs <;>
          (by_cases htag : env.tagExists (effectiveRef spec.ref) = true <;> simp [htag])
      · intro d b
        split_ifs <;>
          (by_cases htag : env.tagExists (effectiveRef spec.ref) = true <;> simp [htag])
    · intro _ _ _ hfetch hreset
      rw [hfetch, hreset]
      by_cases htag : env.tagExists (effectiveRef spec.ref) = true <;> simp [htag]
  · rw [if_neg hcond]
    have hc : ¬(tEx = true ∧ marker = true ∧ stored = some desired) := by
      intro ⟨h1, h2, h3⟩
      exact hcond (by simp [h1, h2, h3])
    refine ⟨?_, ?_, ?_⟩
    · constructor
      · intro hmem
        exfalso
        revert hmem
        split_ifs <;> (intro hmem; rcases List.mem_append.mp hmem with hm | hm <;> simp_all)
      · intro hctr
        exact absurd hctr hc
    · intro h1 h2 h3
      exact absurd ⟨h1, h2, h3⟩ hc
    · intro h1 h2 h3
      exact absurd ⟨h1, h2, h3⟩ hc

theorem c1_amended_witness :
    List.take 2 (processOne oracleFail 3 [("A", fixOldA)] fixStA fixNewA).2.1
        = [Ev.apiDelete "A", Ev.metaDelete "A"] ∧
    (mismatchDelete [("A", fixOldA)] fixStA fixNewA).1.records "A" = none := by
  have h := c1_amended_mismatch_deletes_record oracleFail 3 [("A", fixOldA)] fixStA
    fixNewA fixOldA rfl (by decide) rfl
  exact ⟨h.1, h.2.1⟩

theorem c2_witness :
    ((mainRun oracleUnchanged 3 [fixP] fixStP).2.1).countP
        (fun e => e.pname == "P" && e.isAddOrReindex) = 0 :=
  (c2_no_change_still_registered_noop oracleUnchanged 3 [fixP] fixStP fixP
    (by decide) (by decide) rfl rfl).1

theorem c4_amended_witness :
    downloadOutcome oracleChanged fixBad = Except.error () ∧
    (processOne oracleChanged 3 [] fixStE fixBad).2.2 = true ∧
    ((processOne oracleChanged 3 [] fixStE fixBad).2.1).countP
        (fun e => e.isAddOrReindex) = 0 :=
  c4_amended_zero_origin_skipped oracleChanged 3 [] fixStE fixBad rfl rfl

theorem c5_witness :
    download_archive fixArchEnvOk fixArchSpec (some fixS)
        { targetExists := true, archiveExists := true }
      = (Except.ok false, { targetExists := true, archiveExists := true }, []) :=
  (c5_archive_equality_skip fixArchEnvOk fixArchSpec (some fixS)
    { targetExists := true, archiveExists := true } fixS (lstripDots "tar.gz")
    rfl rfl).1 rfl rfl

theorem c6_witness :
    download_git fixGitEnv fixG (some fixG) true true
      = (Except.ok (fixGitEnv.headBefore != fixGitEnv.headAfter),
         [GitAction.revParseHead, GitAction.fetch,
          GitAction.tagCheck (effectiveRef fixGitSpec.ref),
          (if fixGitEnv.tagExists (effectiveRef fixGitSpec.ref)
           then GitAction.resetTag (effectiveRef fixGitSpec.ref)
           else GitAction.resetBranch (effectiveRef fixGitSpec.ref)),
          GitAction.revParseHead]) :=
  (c6_git_reuse_fetch_reset fixGitEnv fixG fixGitSpec (some fixG) true true
    rfl).2.2 rfl rfl rfl rfl rfl

theorem c7_witness :
    (download_archive fixArchEnvOk fixArchSpecDigest none
        { targetExists := false, archiveExists := false }).2.1 = archCleanup ∧
    ((mainRun oracleFail 3 [fixNewA] fixStEmpty).2.1).countP
        (fun e => e.pname == "A" && e.isAddOrReindex) = 0 :=
  c7_archive_failure_cleanup_and_no_add fixArchEnvOk fixArchSpecDigest none
    { targetExists := false, archiveExists := false } (lstripDots "tar.gz")
    DLErr.hashMismatch oracleFail 3 [fixNewA] fixStEmpty fixNewA
    rfl rfl rfl (by decide) rfl

theorem c8_witness :
    Ev.apiDelete "X" ∈ (getProjects fixStX).2.2 ∧
    ((mainRun oracleUnchanged 3 [] fixStX).2.1).count (Ev.apiDelete "X") = 1 ∧
    (mainRun oracleUnchanged 3 [] fixStX).1.records "X" = none := by
  have h := c8_invalid_purge_and_extras_deleted_once oracleUnchanged 3 [] fixStX "X"
    (by decide) (by decide)
  have hB := h.2 (by intro p hp; cases hp)
  exact ⟨(h.1 rfl).1, hB.1, hB.2.2.1⟩

theorem c9_witness :
    processOne oracleReindexFail 3 [] fixStEmpty fixNewA
      = ((addProject fixStEmpty fixNewA).1,
         [Ev.download "A", Ev.apiAdd "A", Ev.persist "A"]
           ++ (List.range 3).map (fun i => Ev.reindexAttempt "A" (i + 1)),
         false) := by
  have h := c9_retry_policy_only_reindex actAlwaysCPE 3 ((1 : ℚ) / 2) 2
    oracleReindexFail 3 [] fixStEmpty fixNewA
    (by norm_num) (by norm_num) (by norm_num) rfl rfl (fun j => rfl) (by norm_num)
  exact h.2.2.2.2.2.2

theorem c10_witness :
    ((mainRun oracleUnchanged 3 [fixQ] fixStEmpty).2.1).countP
        (fun e => e.pname == "Q" && e.isAddOrReindex) = 0 :=
  (c10_unregistered_unchanged_never_added oracleUnchanged 3 [fixQ] fixStEmpty fixQ
    (by decide) (by decide) rfl).1
